import Mathlib

/-!
Verification of the CONTEXTUAL cognitive-momentum substrate
(`StateVault.js`, `MomentumEngine.js`, `AIHousekeeper.js`, `index.js`)
against its natural-language specification.

The JavaScript code is shallowly embedded: JSON documents and the values
`JSON.parse` yields are one inductive type `JVal` (a document is the
stringification of the value it denotes, so `JSON.stringify` is the
identity of the model and `JSON.parse` is the identity on everything but
non-JSON text, modelled by `JVal.junk`).  AES-256-GCM is embedded
symbolically: a ciphertext is determined by its plaintext, key and iv,
and an authentication tag by the key, iv and ciphertext it authenticates;
`decipher.final()` throws exactly when the supplied tag differs from the
tag of the supplied key, iv and ciphertext, which is the ideal-AEAD
behaviour the code relies on.  File-system directories are
insertion-ordered association lists.  `Date.now()` and
`crypto.randomBytes` results enter as explicit parameters.
-/

/-- A context record as the vault sees it: an `id` field plus an opaque
JSON payload (the vault never inspects anything but `id`). -/
structure VContext where
  id : String
  payload : Nat
deriving DecidableEq, Repr

/-- Symbolic AES-256-GCM ciphertext: the model of the bytes produced by
encrypting `body` under `key` with initialization vector `iv`. -/
structure CtSym (α : Type) where
  body : α
  key : Nat
  iv : Nat
deriving DecidableEq, Repr

/-- Symbolic GCM authentication tag for ciphertext `ct` under `key`/`iv`. -/
structure TagSym (α : Type) where
  key : Nat
  iv : Nat
  ct : CtSym α
deriving DecidableEq, Repr

/-- JSON values and, equally, the documents that stringify them.
`ctx` is a context object, `backupObj` a `{timestamp, contexts}` snapshot
payload, `envObj` an `{encrypted, iv, authTag}` encryption envelope, and
`junk` any text that is not valid JSON. -/
inductive JVal : Type where
  | ctx (c : VContext)
  | backupObj (timestamp : Nat) (contexts : List JVal)
  | envObj (encrypted : CtSym JVal) (iv : Nat) (authTag : TagSym JVal)
  | junk (n : Nat)
deriving Repr

mutual

/-- Structural equality test for JSON values (byte equality of the
stringified documents). -/
def JVal.beq : JVal → JVal → Bool
  | JVal.ctx a, JVal.ctx b => decide (a = b)
  | JVal.backupObj t1 l1, JVal.backupObj t2 l2 =>
      decide (t1 = t2) && JVal.beqList l1 l2
  | JVal.envObj ⟨b1, k1, i1⟩ iv1 ⟨tk1, ti1, ⟨cb1, ck1, ci1⟩⟩,
    JVal.envObj ⟨b2, k2, i2⟩ iv2 ⟨tk2, ti2, ⟨cb2, ck2, ci2⟩⟩ =>
      JVal.beq b1 b2 && decide (k1 = k2) && decide (i1 = i2) &&
      decide (iv1 = iv2) && decide (tk1 = tk2) && decide (ti1 = ti2) &&
      JVal.beq cb1 cb2 && decide (ck1 = ck2) && decide (ci1 = ci2)
  | JVal.junk a, JVal.junk b => decide (a = b)
  | _, _ => false

/-- Pointwise equality test for lists of JSON values. -/
def JVal.beqList : List JVal → List JVal → Bool
  | [], [] => true
  | a :: as, b :: bs => JVal.beq a b && JVal.beqList as bs
  | _, _ => false

end

mutual

theorem JVal.beq_iff : ∀ a b : JVal, JVal.beq a b = true ↔ a = b
  | JVal.ctx a, b => by
    cases b <;> simp [JVal.beq]
  | JVal.junk a, b => by
    cases b <;> simp [JVal.beq]
  | JVal.backupObj t1 l1, b => by
    cases b <;> simp [JVal.beq, JVal.beqList_iff l1]
  | JVal.envObj ⟨b1, k1, i1⟩ iv1 ⟨tk1, ti1, ⟨cb1, ck1, ci1⟩⟩, b => by
    cases b with
    | envObj ct2 iv2 tag2 =>
      obtain ⟨b2, k2, i2⟩ := ct2
      obtain ⟨tk2, ti2, ⟨cb2, ck2, ci2⟩⟩ := tag2
      simp [JVal.beq, JVal.beq_iff b1 b2, JVal.beq_iff cb1 cb2]
      tauto
    | ctx c => simp [JVal.beq]
    | backupObj t l => simp [JVal.beq]
    | junk n => simp [JVal.beq]

theorem JVal.beqList_iff : ∀ a b : List JVal, JVal.beqList a b = true ↔ a = b
  | [], b => by cases b <;> simp [JVal.beqList]
  | a :: as, [] => by simp [JVal.beqList]
  | a :: as, b :: bs => by
    simp [JVal.beqList, JVal.beq_iff a b, JVal.beqList_iff as bs]

end

instance : DecidableEq JVal := fun a b => decidable_of_iff _ (JVal.beq_iff a b)

namespace StateVault

/-- StateVault._encrypt: encrypt `data` under `key` with the random `iv`
drawn inside the function; the envelope records ciphertext, iv and tag.
(The catch fallback `return data` is unreachable for the well-formed
32-byte keys the constructor guarantees, so only the success path is
modelled.) -/
def encrypt (key iv : Nat) (data : JVal) : JVal :=
  JVal.envObj ⟨data, key, iv⟩ iv ⟨key, iv, ⟨data, key, iv⟩⟩

/-- StateVault._decrypt: parse the envelope, check the tag, and return the
plaintext.  Every failure is caught and the function returns its input
unchanged (the source comment reads "Hope it's unencrypted"):
a non-envelope input fails at `JSON.parse`/`Buffer.from`, and a tag
mismatch makes `decipher.final()` throw.  When the tag matches but the
ciphertext was produced under a different key or iv, GCM would also
reject it, and the symbolic model returns garbage bytes (`junk 0`) in
that (cryptographically unreachable) case. -/
def decrypt (key : Nat) (encryptedData : JVal) : JVal :=
  match encryptedData with
  | JVal.envObj ct ivField tag =>
      if tag = ⟨key, ivField, ct⟩ then
        if ct.key = key ∧ ct.iv = ivField then ct.body else JVal.junk 0
      else
        encryptedData
  | _ => encryptedData

end StateVault

/-- Insertion-ordered association map lookup (JavaScript `Map.get` /
reading the file named `k` from a directory). -/
def mapGet {α : Type} : List (String × α) → String → Option α
  | [], _ => none
  | (k', v) :: m, k => if k' = k then some v else mapGet m k

/-- Insertion-ordered association map update (JavaScript `Map.set` /
`fs.writeFileSync`, which overwrites in place and otherwise appends). -/
def mapSet {α : Type} : List (String × α) → String → α → List (String × α)
  | [], k, v => [(k, v)]
  | (k', v') :: m, k, v =>
      if k' = k then (k', v) :: m else (k', v') :: mapSet m k v

/-- JSON.parse: the identity on every JSON document, throwing (modelled
as `none`) on text that is not JSON; the caller's `if (context)` guard
also folds parsed falsy primitives into this case. -/
def parseJson : JVal → Option JVal
  | JVal.junk _ => none
  | v => some v

/-- The vault's configuration after constructor defaulting. -/
structure VaultConfig where
  encryptionEnabled : Bool
  encryptionKey : Nat
  maxBackups : Nat
deriving Repr

/-- The vault's mutable state: the in-memory context map, the `.ctx`
files of the storage directory, the `.bak` files of the backups
directory (both in insertion/creation order, the order `readdirSync`
reports), the memory-only degradation flag and the auto-backup timer. -/
structure VaultState where
  contexts : List (String × JVal)
  files : List (String × JVal)
  backups : List (String × JVal)
  memoryOnly : Bool
  backupTimer : Bool
deriving Repr

namespace StateVault

/-- StateVault.saveContext: validation happens before any mutation;
the returned pair separates the thrown-or-not outcome from the state the
vault is left in, so that a validation throw demonstrably leaves the
state untouched.  `!context || !context.id` is true for a null argument,
an object without an `id` field, and a falsy (empty-string) id. -/
def saveContext (cfg : VaultConfig) (iv : Nat) (context : Option JVal)
    (vs : VaultState) : Except String Unit × VaultState :=
  match context with
  | none => (Except.error "Context must have an id", vs)
  | some cv =>
    match cv with
    | JVal.ctx c =>
      if c.id = "" then (Except.error "Context must have an id", vs)
      else
        let vs1 := { vs with contexts := mapSet vs.contexts c.id cv }
        if vs.memoryOnly then (Except.ok (), vs1)
        else
          let doc := if cfg.encryptionEnabled then
              encrypt cfg.encryptionKey iv cv
            else cv
          (Except.ok (),
            { vs1 with files := mapSet vs1.files (c.id ++ ".ctx") doc })
    | _ => (Except.error "Context must have an id", vs)

/-- StateVault._loadContextFromDisk: read the persisted unit, decrypt it
when encryption is enabled, and JSON.parse the result; any throw is
caught and yields null. -/
def loadContextFromDisk (cfg : VaultConfig) (vs : VaultState)
    (contextId : String) : Option JVal :=
  match mapGet vs.files (contextId ++ ".ctx") with
  | none => none
  | some data =>
      let decrypted := if cfg.encryptionEnabled then
          decrypt cfg.encryptionKey data
        else data
      parseJson decrypted

/-- StateVault.loadContext: memory first, then disk; a disk hit is
cached in the memory map before being returned. -/
def loadContext (cfg : VaultConfig) (contextId : String) (vs : VaultState) :
    Option JVal × VaultState :=
  match mapGet vs.contexts contextId with
  | some v => (some v, vs)
  | none =>
    if vs.memoryOnly then (none, vs)
    else
      match loadContextFromDisk cfg vs contextId with
      | some v => (some v, { vs with contexts := mapSet vs.contexts contextId v })
      | none => (none, vs)

/-- The snapshot file name `backup_<timestamp>.bak`. -/
def backupName (timestamp : Nat) : String :=
  "backup_" ++ toString timestamp ++ ".bak"

/-- One step of the insertion sort modelling `Array.prototype.sort()`
with the default (lexicographic) comparator. -/
def insertName (x : String) : List String → List String
  | [] => [x]
  | y :: ys => if y < x then y :: insertName x ys else x :: y :: ys

/-- `files.sort()`: lexicographically ascending file names. -/
def sortNames (l : List String) : List String := l.foldr insertName []

/-- StateVault._cleanOldBackups: list the `.bak` names sorted, then
repeatedly unlink the first (lexicographically smallest) until the count
no longer exceeds `maxBackups`; net effect is deleting the
`count - maxBackups` smallest names. -/
def cleanOldBackups (cfg : VaultConfig) (bs : List (String × JVal)) :
    List (String × JVal) :=
  let names := sortNames (bs.map Prod.fst)
  let doomed := names.take (names.length - cfg.maxBackups)
  bs.filter (fun e => decide (e.1 ∉ doomed))

/-- StateVault.backup: serialize all held contexts into one
`{timestamp, contexts}` snapshot, encrypt it, write it under a
timestamp-derived name, then rotate; skipped entirely (returning
undefined, modelled `none`) in memory-only mode. -/
def backup (cfg : VaultConfig) (timestamp iv : Nat) (vs : VaultState) :
    Option Nat × VaultState :=
  if vs.memoryOnly then (none, vs)
  else
    let backupData := JVal.backupObj timestamp (vs.contexts.map Prod.snd)
    let doc := if cfg.encryptionEnabled then
        encrypt cfg.encryptionKey iv backupData
      else backupData
    let bs1 := mapSet vs.backups (backupName timestamp) doc
    (some timestamp, { vs with backups := cleanOldBackups cfg bs1 })

/-- The key under which a restored member is put back into the context
map: `ctx.id`, which is undefined (modelled `""`) for a member that is
not a context object. -/
def jsIdKey : JVal → String
  | JVal.ctx c => c.id
  | _ => ""

/-- StateVault.restore: pick the named snapshot, or the last entry of
the (unsorted) directory listing when `timestamp` is null; decrypt and
parse it, then replace the whole context map with its members; any
throw (missing file, non-JSON, or a decrypt fallback that has no
`contexts` field to destructure) is caught and yields false. -/
def restore (cfg : VaultConfig) (timestamp : Option Nat) (vs : VaultState) :
    Bool × VaultState :=
  if vs.memoryOnly then (false, vs)
  else
    let files := vs.backups.map Prod.fst
    if files.isEmpty then (false, vs)
    else
      let backupFile := match timestamp with
        | some ts => backupName ts
        | none => (files.getLast?).getD ""
      match mapGet vs.backups backupFile with
      | none => (false, vs)
      | some backupData =>
        let decrypted := if cfg.encryptionEnabled then
            decrypt cfg.encryptionKey backupData
          else backupData
        match decrypted with
        | JVal.backupObj _ cs =>
            (true, { vs with contexts := cs.foldl (fun m v => mapSet m (jsIdKey v) v) [] })
        | _ => (false, vs)

/-- StateVault.stopAutoBackup: clear the interval timer. -/
def stopAutoBackup (vs : VaultState) : VaultState :=
  { vs with backupTimer := false }

/-- StateVault.shutdown: stop the timer, then one final backup. -/
def shutdown (cfg : VaultConfig) (timestamp iv : Nat) (vs : VaultState) :
    VaultState :=
  (backup cfg timestamp iv (stopAutoBackup vs)).2

end StateVault

/-- The per-factor weights of `config.factors` in MomentumEngine. -/
structure FactorWeights where
  temporal : ℝ
  semantic : ℝ
  operational : ℝ
  depth : ℝ
  confidence : ℝ

/-- MomentumEngine configuration after constructor defaulting
(defaults: halfLife 30000, minMomentum 0.1, weights
0.25/0.30/0.20/0.15/0.10). -/
structure MomentumConfig where
  halfLife : ℝ
  minMomentum : ℝ
  factors : FactorWeights

/-- The slice of a Context record the temporal and confidence factors
read: `lastAccess`, `accessCount`, and the `confidence`/`certainty`
entries of the free-form `state` mapping (absent entries are `none`).
Confidence values are exact rationals, time stamps are reals. -/
structure MContext where
  id : String
  lastAccess : ℝ
  accessCount : ℕ
  confidence : Option ℚ
  certainty : Option ℚ

/-- MomentumEngine._calculateTemporalMomentum: exponential decay of the
time since last access, with decay constant ln 2 / halfLife, floored at
minMomentum.  `Date.now()` enters as the explicit `now`. -/
noncomputable def calculateTemporalMomentum (cfg : MomentumConfig)
    (now : ℝ) (context : MContext) : ℝ :=
  let timeSinceAccess := now - context.lastAccess
  let decayConstant := Real.log 2 / cfg.halfLife
  let momentum := Real.exp (-decayConstant * timeSinceAccess)
  max cfg.minMomentum momentum

/-- The spec's temporal-momentum formula, written from the spec text:
`max(minMomentum, exp(-ln(2)/halfLife * (now - lastAccess)))`. -/
noncomputable def temporalSpecFormula (cfg : MomentumConfig)
    (now lastAccess : ℝ) : ℝ :=
  max cfg.minMomentum (Real.exp (-(Real.log 2) / cfg.halfLife * (now - lastAccess)))

/-- The five factor values fed to MomentumEngine._combineFactors. -/
structure Factors where
  temporal : ℝ
  semantic : ℝ
  operational : ℝ
  depth : ℝ
  confidence : ℝ

/-- MomentumEngine._combineFactors: the weighted sum of the five factors
under the configured weights, clamped into `[minMomentum, 1]`. -/
noncomputable def combineFactors (cfg : MomentumConfig) (factors : Factors) : ℝ :=
  let overall :=
    factors.temporal * cfg.factors.temporal +
    factors.semantic * cfg.factors.semantic +
    factors.operational * cfg.factors.operational +
    factors.depth * cfg.factors.depth +
    factors.confidence * cfg.factors.confidence
  max cfg.minMomentum (min 1 overall)

/-- The spec's combination formula, written from the spec text:
`overall = Σ(factor_i * weight_i)` clamped below by minMomentum and
above by 1. -/
noncomputable def combineSpecFormula (cfg : MomentumConfig) (factors : Factors) : ℝ :=
  max cfg.minMomentum (min 1
    (factors.temporal * cfg.factors.temporal +
     factors.semantic * cfg.factors.semantic +
     factors.operational * cfg.factors.operational +
     factors.depth * cfg.factors.depth +
     factors.confidence * cfg.factors.confidence))

/-- JavaScript truthiness of an optional numeric state entry: present
and nonzero (`!state.confidence` is true both for an absent entry and
for a present value 0). -/
def truthy : Option ℚ → Bool
  | none => false
  | some x => decide (x ≠ 0)

/-- JavaScript `a || b` on an optional numeric left operand. -/
def jsOrQ (a : Option ℚ) (b : ℚ) : ℚ :=
  match a with
  | some x => if x = 0 then b else x
  | none => b

/-- MomentumEngine._calculateConfidenceMomentum: neutral 0.5 when both
`state.confidence` and `state.certainty` are falsy, else the first
truthy of them (defaulting 0.5) plus an access-frequency bonus of
`min(0.3, accessCount * 0.05)`, capped at 1. -/
def calculateConfidenceMomentum (context : MContext) : ℚ :=
  if truthy context.confidence = false ∧ truthy context.certainty = false then 0.5
  else
    let confidence := jsOrQ context.confidence (jsOrQ context.certainty 0.5)
    let accessBonus := min 0.3 ((context.accessCount : ℚ) * 0.05)
    min 1 (confidence + accessBonus)

/-- The claim's confidence formula, written from the claim text: 0.5
when both entries are absent, else `min(1, c + min(0.3,
accessCount*0.05))` where `c` is the present value (confidence first). -/
def confidenceClaimFormula (context : MContext) : ℚ :=
  match context.confidence, context.certainty with
  | none, none => 0.5
  | some c, _ => min 1 (c + min 0.3 ((context.accessCount : ℚ) * 0.05))
  | none, some c => min 1 (c + min 0.3 ((context.accessCount : ℚ) * 0.05))

/-- The amended confidence formula: 0.5 when both entries are absent or
zero; otherwise `min(1, c + min(0.3, accessCount*0.05))` where `c` is
`confidence` when present and nonzero, else `certainty`. -/
def confidenceAmendedFormula (context : MContext) : ℚ :=
  if truthy context.confidence then
    min 1 (context.confidence.getD 0 + min 0.3 ((context.accessCount : ℚ) * 0.05))
  else if truthy context.certainty then
    min 1 (context.certainty.getD 0 + min 0.3 ((context.accessCount : ℚ) * 0.05))
  else 0.5

/-- A transition ledger record (spec §3): timestamp, source context id
(null for the first transition), target id, whether data was carried,
optional reason. -/
structure TransitionRecord where
  timestamp : Nat
  fromId : Option String
  toId : String
  transferred : Bool
  reason : Option String
deriving DecidableEq, Repr

/-- A Bridge-owned context record's registry fields (spec §3). -/
structure BridgeContext where
  id : String
  appId : String
  lastAccess : Nat
  accessCount : Nat
deriving DecidableEq, Repr

/-- The registry Bridge's state: in-memory context registry, active
context pointer, append-only transition ledger. -/
structure BridgeState where
  contexts : List (String × BridgeContext)
  activeContext : Option String
  transitionLog : List TransitionRecord
deriving Repr

/-- Modelled from the spec: the registry ContextBridge with
`createContext`/`transition`/`updateState` that `index.js` instantiates
(`this.bridge.transition(targetContextId, transitionData)`,
`this.bridge.contexts`, `this.bridge.transitionLog`) is not among the
repository's source files; only its caller `CONTEXTUAL.transition` and
a different, platform-keyed ContextBridge are.  Spec §4.1: transition
fails (returns false, does not throw) if `targetContextId` is not
registered; on success it appends a TransitionRecord with
`from = activeContext`, `to = targetContextId`, sets the target active,
and bumps its `accessCount`/`lastAccess`. -/
def ContextBridge.transition (now : Nat) (targetContextId : String)
    (transitionData : Option String) (bs : BridgeState) : Bool × BridgeState :=
  match mapGet bs.contexts targetContextId with
  | none => (false, bs)
  | some c =>
    let record : TransitionRecord :=
      ⟨now, bs.activeContext, targetContextId, true, transitionData⟩
    (true,
      { contexts := mapSet bs.contexts targetContextId
          { c with accessCount := c.accessCount + 1, lastAccess := now },
        activeContext := some targetContextId,
        transitionLog := bs.transitionLog ++ [record] })

/-- JavaScript `toLowerCase()` (ASCII case folding, which covers every
pattern the Housekeeper matches). -/
def jsToLower (s : String) : String := String.map Char.toLower s

/-- A regex `\w` character: ASCII alphanumeric or underscore. -/
def isWordChar (c : Char) : Bool := c.isAlphanum || c = '_'

/-- Maximal runs of word characters, accumulating the current run in
reverse; implements `text.match(/\b\w+\b/g) || []`. -/
def wordsAux : List Char → List Char → List String
  | [], acc => if acc.isEmpty then [] else [String.mk acc.reverse]
  | c :: cs, acc =>
    if isWordChar c then wordsAux cs (c :: acc)
    else if acc.isEmpty then wordsAux cs []
    else String.mk acc.reverse :: wordsAux cs []

/-- AIHousekeeper._extractWords. -/
def extractWords (text : String) : List String := wordsAux text.data []

/-- Whether `hay` begins with `needle`. -/
def listStartsWith : List Char → List Char → Bool
  | _, [] => true
  | [], _ :: _ => false
  | h :: hs, n :: ns => h = n && listStartsWith hs ns

/-- Whether `needle` occurs contiguously in `hay` (`String.includes`). -/
def listContains : List Char → List Char → Bool
  | [], needle => needle.isEmpty
  | hay@(_ :: t), needle => listStartsWith hay needle || listContains t needle

/-- `hay.includes(needle)`. -/
def containsStr (hay needle : String) : Bool := listContains hay.data needle.data

/-- AIHousekeeper._scoreRelevance: fraction of question words present in
the answer, plus a 0.3 baseline, capped at 1. -/
def scoreRelevance (answer question : String) : ℚ :=
  let answerWords := extractWords (jsToLower answer)
  let questionWords := extractWords (jsToLower question)
  let overlap := answerWords.filter (fun w => questionWords.contains w)
  let relevance : ℚ :=
    if questionWords.length > 0 then
      (overlap.length : ℚ) / (questionWords.length : ℚ)
    else 0
  min 1 (relevance + 0.3)

/-- AIHousekeeper._scoreCompleteness: word-count distance from the
150-word optimum with 100 tolerance; hard floors for very short (<20)
and very long (>500) answers. -/
def scoreCompleteness (answer : String) : ℚ :=
  let wordCount := (extractWords answer).length
  if wordCount < 20 then 0.3
  else if wordCount > 500 then 0.6
  else
    let distance : ℚ := |(wordCount : ℚ) - 150|
    max 0 (min 1 (1 - distance / (150 + 100)))

/-- Splitting on every `.`/`!`/`?`; combined with the nonblank filter
below this counts the same segments as splitting on runs `[.!?]+` and
filtering `s.trim().length > 0`, since the extra segments produced
between adjacent terminators are empty. -/
def splitSentencesAux : List Char → List Char → List (List Char)
  | [], acc => [acc.reverse]
  | c :: cs, acc =>
    if c = '.' || c = '!' || c = '?' then acc.reverse :: splitSentencesAux cs []
    else splitSentencesAux cs (c :: acc)

/-- Whether a segment survives `s.trim().length > 0`. -/
def hasNonWs (l : List Char) : Bool := l.any (fun c => !c.isWhitespace)

/-- AIHousekeeper._scoreStructure: base 0.4 plus bonuses for logical
connectors, three or more sentences, and paragraph breaks, capped at 1. -/
def scoreStructure (answer : String) : ℚ :=
  let sentences := (splitSentencesAux answer.data []).filter hasNonWs
  let connectors := ["therefore", "however", "moreover", "furthermore",
    "additionally", "consequently", "nevertheless", "thus"]
  let hasConnectors := connectors.any (fun c => containsStr (jsToLower answer) c)
  let multiSentence := sentences.length ≥ 3
  let hasParagraphs := containsStr answer "\n\n"
  min 1 (0.4 + (if hasConnectors then (0.3 : ℚ) else 0) +
    (if multiSentence then (0.2 : ℚ) else 0) +
    (if hasParagraphs then (0.1 : ℚ) else 0))

/-- AIHousekeeper._scoreConfidenceMarkers. -/
def scoreConfidenceMarkers (answer : String) : ℚ :=
  let confident := ["research shows", "studies indicate", "evidence suggests",
    "proven", "established"]
  let uncertain := ["might", "maybe", "perhaps", "possibly", "unclear",
    "uncertain"]
  let hasConfident := confident.any (fun m => containsStr (jsToLower answer) m)
  let hasUncertain := uncertain.any (fun m => containsStr (jsToLower answer) m)
  if hasConfident && !hasUncertain then 0.9
  else if hasConfident && hasUncertain then 0.7
  else if !hasConfident && !hasUncertain then 0.5
  else 0.3

/-- A JavaScript regex line terminator, which `.` does not match. -/
def isLineTerm (c : Char) : Bool :=
  c = '\n' || c = '\r' || c.toNat = 0x2028 || c.toNat = 0x2029

/-- Length of the alternative of `alts` matching at the head of `l`,
if any. -/
def firstMatchLen (alts : List String) (l : List Char) : Option Nat :=
  match alts.find? (fun a => listStartsWith l a.data) with
  | some a => some a.data.length
  | none => none

/-- Whether `first.*second` (with `.` not crossing line terminators)
matches somewhere in `l`, for literal alternations `firsts`/`seconds`. -/
def reGap2 (firsts seconds : List String) : List Char → Bool
  | [] => false
  | l@(_ :: t) =>
    (match firstMatchLen firsts l with
     | some n =>
       let line := (l.drop n).takeWhile (fun c => !isLineTerm c)
       seconds.any (fun s => listContains line s.data)
     | none => false)
    || reGap2 firsts seconds t

/-- Whether `first.*mid.*last` (with `.` not crossing line terminators)
matches somewhere in `l`; both gaps and all literals then lie on one
line, so the tail is a two-part search inside the rest of the line. -/
def reGap3 (firsts mids lasts : List String) : List Char → Bool
  | [] => false
  | l@(_ :: t) =>
    (match firstMatchLen firsts l with
     | some n =>
       let line := (l.drop n).takeWhile (fun c => !isLineTerm c)
       reGap2 mids lasts line
     | none => false)
    || reGap3 firsts mids lasts t

/-- AIHousekeeper._scoreContradictions: 0.3 when one of the three
case-insensitive contradiction patterns matches, else 1. -/
def scoreContradictions (answer : String) : ℚ :=
  let s := (jsToLower answer).data
  let hasContradiction :=
    reGap2 ["but then", "but also", "but however"] ["not", "never", "no"] s ||
    reGap2 ["although", "while", "whereas"] ["but", "however"] s ||
    reGap3 ["yes", "true", "correct"] ["but", "however"]
      ["no", "false", "incorrect"] s
  if hasContradiction then 0.3 else 1.0

/-- AIHousekeeper._detectQuestionType: anchored case-insensitive prefix
tests, in source order. -/
def detectQuestionType (question : String) : String :=
  let q := jsToLower question
  if q.startsWith "how" then "how"
  else if q.startsWith "why" then "why"
  else if q.startsWith "what" then "what"
  else if q.startsWith "when" then "when"
  else "general"

/-- Case-insensitive unanchored alternation test, as in
AIHousekeeper._detectAnswerFormat. -/
def anyPat (answer : String) (pats : List String) : Bool :=
  pats.any (fun p => containsStr (jsToLower answer) p)

/-- AIHousekeeper._scoreContextAlignment. -/
def scoreContextAlignment (answer question : String) : ℚ :=
  let questionType := detectQuestionType question
  let hasSteps := anyPat answer ["step", "first", "second", "next", "then", "finally"]
  let hasReasons := anyPat answer ["because", "since", "due to", "reason", "cause"]
  let hasDefinition := anyPat answer ["is", "means", "refers to", "defined as"]
  let hasTimeframe := anyPat answer ["when", "during", "after", "before", "time", "period"]
  let aligned :=
    (questionType = "how" && hasSteps) ||
    (questionType = "why" && hasReasons) ||
    (questionType = "what" && hasDefinition) ||
    (questionType = "when" && hasTimeframe)
  if aligned then 0.9 else 0.5

/-- Count of non-overlapping leftmost matches of a literal alternation,
scanning left to right as a global regex does; `fuel` bounds the
recursion by the text length. -/
def countLits (alts : List String) : Nat → List Char → Nat
  | 0, _ => 0
  | _ + 1, [] => 0
  | fuel + 1, l@(_ :: t) =>
    match firstMatchLen alts l with
    | some n => 1 + countLits alts fuel (l.drop n)
    | none => countLits alts fuel t

/-- Count of matches of `(\d+|specific|particular|exact|precise|detailed)`:
the first alternative greedily consumes a maximal digit run. -/
def countSpecific : Nat → List Char → Nat
  | 0, _ => 0
  | _ + 1, [] => 0
  | fuel + 1, l@(c :: _) =>
    if c.isDigit then 1 + countSpecific fuel (l.dropWhile Char.isDigit)
    else
      match firstMatchLen ["specific", "particular", "exact", "precise", "detailed"] l with
      | some n => 1 + countSpecific fuel (l.drop n)
      | none => countSpecific fuel l.tail

/-- AIHousekeeper._scoreSpecificity. -/
def scoreSpecificity (answer : String) : ℚ :=
  let s := (jsToLower answer).data
  let specificCount := countSpecific (s.length + 1) s
  let vagueCount := countLits ["some", "many", "few", "several", "various",
    "general", "roughly"] (s.length + 1) s
  if specificCount > vagueCount then 0.8
  else if specificCount = vagueCount then 0.5
  else 0.3

/-- AIHousekeeper._scoreEvidence: 0.2 per evidence marker present,
capped at 1. -/
def scoreEvidence (answer : String) : ℚ :=
  let evidenceMarkers := ["study", "research", "data", "statistics", "example",
    "case", "experiment", "analysis", "findings", "results"]
  let count := (evidenceMarkers.filter (fun m => containsStr (jsToLower answer) m)).length
  min 1 ((count : ℚ) * 0.2)

/-- The eight factor scores of AIHousekeeper._scoreAnswer
(`structureFactor` is the source's `structure`, a Lean keyword). -/
structure ScoreFactors where
  relevance : ℚ
  completeness : ℚ
  structureFactor : ℚ
  confidence : ℚ
  contradiction : ℚ
  context : ℚ
  specificity : ℚ
  evidence : ℚ
deriving DecidableEq, Repr

/-- An AnswerScore: the eight factors and their weighted combination. -/
structure AnswerScore where
  overall : ℚ
  factors : ScoreFactors
deriving DecidableEq, Repr

/-- AIHousekeeper._scoreAnswer: the 8-factor weighted score. -/
def scoreAnswer (answer question : String) : AnswerScore :=
  let factors : ScoreFactors :=
    { relevance := scoreRelevance answer question
      completeness := scoreCompleteness answer
      structureFactor := scoreStructure answer
      confidence := scoreConfidenceMarkers answer
      contradiction := scoreContradictions answer
      context := scoreContextAlignment answer question
      specificity := scoreSpecificity answer
      evidence := scoreEvidence answer }
  { overall :=
      factors.relevance * 0.25 + factors.completeness * 0.15 +
      factors.structureFactor * 0.12 + factors.confidence * 0.15 +
      factors.contradiction * 0.10 + factors.context * 0.10 +
      factors.specificity * 0.08 + factors.evidence * 0.05
    factors := factors }

/-- What filterAnswers returns: the winning answer, its score breakdown,
and the confidence (AIHousekeeper._calculateConfidence, the overall). -/
structure FilterResult where
  answer : String
  score : AnswerScore
  confidence : ℚ
deriving Repr

/-- One step of the stable insertion sort realizing
`scored.sort((a, b) => b.score.overall - a.score.overall)`: descending
by overall, and an element coming from further left is placed before
any equal-scored element to its right, as ECMAScript's stable sort
requires. -/
def insertScoredDesc (x : String × AnswerScore) :
    List (String × AnswerScore) → List (String × AnswerScore)
  | [] => [x]
  | y :: ys =>
    if y.2.overall < x.2.overall ∨ y.2.overall = x.2.overall then x :: y :: ys
    else y :: insertScoredDesc x ys

/-- The stable descending sort of the scored candidates. -/
def sortScoredDesc (l : List (String × AnswerScore)) :
    List (String × AnswerScore) :=
  l.foldr insertScoredDesc []

/-- AIHousekeeper.filterAnswers: throw on an empty candidate array (and
a non-array argument, which the typed embedding rules out), else score
every candidate, sort stably by descending overall score, and return
the top one.  The inner empty case is unreachable: sorting a non-empty
list is non-empty. -/
def filterAnswers (candidates : List String) (question : String) :
    Except String FilterResult :=
  if candidates.isEmpty then
    Except.error "Candidates must be a non-empty array"
  else
    let scored := candidates.map (fun answer => (answer, scoreAnswer answer question))
    match sortScoredDesc scored with
    | [] => Except.error "Candidates must be a non-empty array"
    | best :: _ =>
      Except.ok { answer := best.1, score := best.2, confidence := best.2.overall }

/-! ## Shared lemmas -/

theorem StateVault.decrypt_encrypt (key iv : Nat) (x : JVal) :
    StateVault.decrypt key (StateVault.encrypt key iv x) = x := by
  simp [StateVault.encrypt, StateVault.decrypt]

/-! ## Claim C1 -/

/-- The plaintext used for the concrete tampering exhibit. -/
def c1Plain : JVal := JVal.ctx ⟨"a", 7⟩

/-- The ciphertext of `c1Plain` under key 1, iv 2. -/
def c1Ct : CtSym JVal := ⟨c1Plain, 1, 2⟩

/-- The envelope produced by `_encrypt 1 2 c1Plain` with its
authentication tag bytes altered (tag of a different key). -/
def c1Tampered : JVal := JVal.envObj c1Ct 2 ⟨0, 2, c1Ct⟩

/-- C1: decrypting an encryption under the same key returns the payload
unchanged, for every payload; but tampering with the envelope is NOT a
hard failure: on the concrete envelope `c1Tampered`, whose tag was
altered, `_decrypt` silently returns the tampered envelope text itself
(the catch branch "Hope it's unencrypted"), which is neither an error
result nor the original plaintext.  This refutes the hard-failure half
of the claim on the code as written. -/
theorem c1_roundtrip_but_tamper_passes_through :
    (∀ (key iv : Nat) (x : JVal),
      StateVault.decrypt key (StateVault.encrypt key iv x) = x)
    ∧ c1Tampered ≠ StateVault.encrypt 1 2 c1Plain
    ∧ StateVault.decrypt 1 c1Tampered = c1Tampered
    ∧ StateVault.decrypt 1 c1Tampered ≠ c1Plain := by
  refine ⟨StateVault.decrypt_encrypt, by decide, by decide, by decide⟩

/-! ## Claim C4 -/

/-- Vault configuration with encryption enabled under key 1. -/
def c4Cfg : VaultConfig := ⟨true, 1, 10⟩

/-- A persisted unit whose authentication tag was corrupted on disk. -/
def c4TamperedDoc : JVal :=
  JVal.envObj ⟨JVal.ctx ⟨"a", 7⟩, 1, 2⟩ 2 ⟨0, 2, ⟨JVal.ctx ⟨"a", 7⟩, 1, 2⟩⟩

/-- A vault whose storage holds the corrupted unit for id "a". -/
def c4Vault : VaultState := ⟨[], [("a.ctx", c4TamperedDoc)], [], false, false⟩

/-- A vault whose storage holds non-JSON bytes for id "b". -/
def c4JunkVault : VaultState := ⟨[], [("b.ctx", JVal.junk 3)], [], false, false⟩

/-- C4: loadContext does return null for an absent unit and for a unit
that fails to deserialize, and corruption never raises (the embedding is
total); but for a unit whose envelope fails authentication, `_decrypt`
falls back to returning the envelope text, `JSON.parse` then succeeds on
it, and loadContext returns the parsed envelope object — a non-null,
non-Context value, refuting the claim on the code as written. -/
theorem c4_loadContext_returns_envelope_on_corruption :
    (StateVault.loadContext c4Cfg "a" c4Vault).1 = some c4TamperedDoc
    ∧ (∀ c : VContext,
        (StateVault.loadContext c4Cfg "a" c4Vault).1 ≠ some (JVal.ctx c))
    ∧ (StateVault.loadContext c4Cfg "b" c4JunkVault).1 = none
    ∧ (StateVault.loadContext c4Cfg "missing" c4Vault).1 = none := by
  refine ⟨by decide, ?_, by decide, by decide⟩
  intro c h
  rw [show (StateVault.loadContext c4Cfg "a" c4Vault).1 = some c4TamperedDoc from by decide] at h
  simp [c4TamperedDoc] at h

/-! ## Claim C7 -/

/-- C7: a transition to a target id that is not registered returns
false and leaves the bridge state (registry, active pointer, ledger)
unchanged; the embedding is a total function, so no exception escapes. -/
theorem c7_transition_unknown_target_returns_false
    (now : Nat) (targetContextId : String) (transitionData : Option String)
    (bs : BridgeState) (h : mapGet bs.contexts targetContextId = none) :
    ContextBridge.transition now targetContextId transitionData bs = (false, bs) := by
  simp [ContextBridge.transition, h]

/-- Witness: the concrete empty bridge rejects the unregistered target
"nope" with a false return and an unchanged state. -/
theorem c7_witness :
    ContextBridge.transition 5 "nope" none ⟨[], none, []⟩ = (false, ⟨[], none, []⟩) :=
  c7_transition_unknown_target_returns_false 5 "nope" none ⟨[], none, []⟩ (by decide)

/-! ## Claim C10 -/

/-- Whether a saveContext argument passes the `!context || !context.id`
validation: a present context object with a truthy id. -/
def hasValidId : Option JVal → Bool
  | some (JVal.ctx c) => decide (c.id ≠ "")
  | _ => false

/-- C10: when the argument is null or lacks a (truthy) id, saveContext
throws the validation error and the vault state — in-memory map and
persisted storage alike — is exactly what it was, because the check
precedes every mutation. -/
theorem c10_saveContext_validation_atomic (cfg : VaultConfig) (iv : Nat)
    (context : Option JVal) (vs : VaultState)
    (h : hasValidId context = false) :
    (StateVault.saveContext cfg iv context vs).1 =
      Except.error "Context must have an id"
    ∧ (StateVault.saveContext cfg iv context vs).2 = vs := by
  match context with
  | none => exact ⟨rfl, rfl⟩
  | some (JVal.ctx c) =>
    have hid : c.id = "" := by
      by_contra hne
      simp [hasValidId, hne] at h
    constructor <;> simp [StateVault.saveContext, hid]
  | some (JVal.backupObj t l) => exact ⟨rfl, rfl⟩
  | some (JVal.envObj ct i tag) => exact ⟨rfl, rfl⟩
  | some (JVal.junk n) => exact ⟨rfl, rfl⟩

/-- Witness: saving a context whose id is the empty string into a
concrete vault errors and leaves the vault untouched. -/
theorem c10_witness :
    (StateVault.saveContext ⟨true, 1, 10⟩ 0 (some (JVal.ctx ⟨"", 3⟩))
        ⟨[], [], [], false, false⟩).1 = Except.error "Context must have an id"
    ∧ (StateVault.saveContext ⟨true, 1, 10⟩ 0 (some (JVal.ctx ⟨"", 3⟩))
        ⟨[], [], [], false, false⟩).2 = ⟨[], [], [], false, false⟩ :=
  c10_saveContext_validation_atomic ⟨true, 1, 10⟩ 0 (some (JVal.ctx ⟨"", 3⟩))
    ⟨[], [], [], false, false⟩ (by decide)

/-! ## Claim C3 -/

/-- C3: for factor inputs in [0,1] (and any configured weights), the
combined momentum is the weighted sum clamped below by minMomentum and
above by 1, hence lies in `[minMomentum, 1]` whenever that interval is
non-degenerate. -/
theorem c3_overall_clamped (cfg : MomentumConfig) (f : Factors)
    (hm : cfg.minMomentum ≤ 1)
    (_h1 : 0 ≤ f.temporal ∧ f.temporal ≤ 1)
    (_h2 : 0 ≤ f.semantic ∧ f.semantic ≤ 1)
    (_h3 : 0 ≤ f.operational ∧ f.operational ≤ 1)
    (_h4 : 0 ≤ f.depth ∧ f.depth ≤ 1)
    (_h5 : 0 ≤ f.confidence ∧ f.confidence ≤ 1) :
    cfg.minMomentum ≤ combineFactors cfg f
    ∧ combineFactors cfg f ≤ 1
    ∧ combineFactors cfg f = combineSpecFormula cfg f := by
  refine ⟨le_max_left _ _, ?_, rfl⟩
  exact max_le hm (min_le_left _ _)

/-- Witness: with the default configuration and all five factors 1/2,
the combined momentum is within the clamp interval and matches the
spec's formula. -/
theorem c3_witness :
    (0.1 : ℝ) ≤ combineFactors ⟨30000, 0.1, ⟨0.25, 0.30, 0.20, 0.15, 0.10⟩⟩
        ⟨1/2, 1/2, 1/2, 1/2, 1/2⟩
    ∧ combineFactors ⟨30000, 0.1, ⟨0.25, 0.30, 0.20, 0.15, 0.10⟩⟩
        ⟨1/2, 1/2, 1/2, 1/2, 1/2⟩ ≤ 1
    ∧ combineFactors ⟨30000, 0.1, ⟨0.25, 0.30, 0.20, 0.15, 0.10⟩⟩
        ⟨1/2, 1/2, 1/2, 1/2, 1/2⟩ =
      combineSpecFormula ⟨30000, 0.1, ⟨0.25, 0.30, 0.20, 0.15, 0.10⟩⟩
        ⟨1/2, 1/2, 1/2, 1/2, 1/2⟩ :=
  c3_overall_clamped ⟨30000, 0.1, ⟨0.25, 0.30, 0.20, 0.15, 0.10⟩⟩
    ⟨1/2, 1/2, 1/2, 1/2, 1/2⟩ (by norm_num) (by norm_num) (by norm_num)
    (by norm_num) (by norm_num) (by norm_num)

/-! ## Claim C9 -/

/-- A context whose state carries a present confidence value 0 (and no
certainty): present but falsy. -/
noncomputable def c9Ctx : MContext := ⟨"c", 0, 0, some 0, none⟩

/-- C9 counterexample: with `state.confidence` present and equal to 0,
the code returns the neutral 0.5 (the `!state.confidence` truthiness
guard fires), while the claim's formula — confidence is present, so
`min(1, confidence + min(0.3, accessCount*0.05))` — gives 0. -/
theorem c9_counterexample :
    calculateConfidenceMomentum c9Ctx = 1/2
    ∧ confidenceClaimFormula c9Ctx = 0
    ∧ calculateConfidenceMomentum c9Ctx ≠ confidenceClaimFormula c9Ctx := by
  have h1 : calculateConfidenceMomentum c9Ctx = 1/2 := by
    norm_num [calculateConfidenceMomentum, c9Ctx, truthy]
  have h2 : confidenceClaimFormula c9Ctx = 0 := by
    have hmin : min (0.3 : ℚ) 0 = 0 := min_eq_right (by norm_num)
    norm_num [confidenceClaimFormula, c9Ctx, hmin]
  exact ⟨h1, h2, by rw [h1, h2]; norm_num⟩

/-- C9 amended: the factor is 0.5 whenever both `state.confidence` and
`state.certainty` are absent or zero (JavaScript-falsy); otherwise it is
`min(1, c + min(0.3, accessCount*0.05))` where `c` is `confidence` when
present and nonzero, else `certainty`. -/
theorem c9_confidence_amended (context : MContext) :
    calculateConfidenceMomentum context = confidenceAmendedFormula context := by
  rcases hc : context.confidence with _ | x <;>
    rcases hz : context.certainty with _ | y
  · simp [calculateConfidenceMomentum, confidenceAmendedFormula, truthy, jsOrQ, hc, hz]
  · by_cases hy : y = 0 <;>
      simp [calculateConfidenceMomentum, confidenceAmendedFormula, truthy, jsOrQ, hc, hz, hy]
  · by_cases hx : x = 0 <;>
      simp [calculateConfidenceMomentum, confidenceAmendedFormula, truthy, jsOrQ, hc, hz, hx]
  · by_cases hx : x = 0 <;> by_cases hy : y = 0 <;>
      simp [calculateConfidenceMomentum, confidenceAmendedFormula, truthy, jsOrQ, hc, hz, hx, hy]

/-! ## Claim C2 -/

/-- C2: for a positive half-life and `0 ≤ minMomentum ≤ 1/2`, the
temporal factor (i) equals the spec's formula
`max(minMomentum, exp(-ln(2)/halfLife * (now - lastAccess)))` for every
context and instant, (ii) is exactly 1/2 when the elapsed time equals
the half-life, (iii) is non-increasing in the elapsed time, and
(iv) tends to minMomentum as the elapsed time grows without bound. -/
theorem c2_temporal_decay (cfg : MomentumConfig)
    (hh : 0 < cfg.halfLife) (hm0 : 0 ≤ cfg.minMomentum)
    (hm : cfg.minMomentum ≤ 1 / 2) :
    (∀ (now : ℝ) (c : MContext),
      calculateTemporalMomentum cfg now c =
        temporalSpecFormula cfg now c.lastAccess)
    ∧ (∀ c : MContext,
        calculateTemporalMomentum cfg (c.lastAccess + cfg.halfLife) c = 1 / 2)
    ∧ (∀ (c : MContext) (t₁ t₂ : ℝ), t₁ ≤ t₂ →
        calculateTemporalMomentum cfg (c.lastAccess + t₂) c ≤
          calculateTemporalMomentum cfg (c.lastAccess + t₁) c)
    ∧ (∀ c : MContext,
        Filter.Tendsto (fun now => calculateTemporalMomentum cfg now c)
          Filter.atTop (nhds cfg.minMomentum)) := by
  have hlog : (0 : ℝ) < Real.log 2 := Real.log_pos (by norm_num)
  have hc : 0 < Real.log 2 / cfg.halfLife := div_pos hlog hh
  refine ⟨?_, ?_, ?_, ?_⟩
  · intro now c
    simp only [calculateTemporalMomentum, temporalSpecFormula, neg_div]
  · intro c
    have harg : -(Real.log 2 / cfg.halfLife) *
        (c.lastAccess + cfg.halfLife - c.lastAccess) = -Real.log 2 := by
      field_simp
    simp only [calculateTemporalMomentum, harg, Real.exp_neg,
      Real.exp_log (by norm_num : (0:ℝ) < 2)]
    rw [max_eq_right]
    · norm_num
    · rw [show ((2:ℝ))⁻¹ = 1 / 2 by norm_num]
      exact hm
  · intro c t₁ t₂ ht
    simp only [calculateTemporalMomentum]
    refine max_le_max le_rfl ?_
    apply Real.exp_le_exp.mpr
    nlinarith
  · intro c
    have h1 : Filter.Tendsto (fun now : ℝ => now - c.lastAccess)
        Filter.atTop Filter.atTop := by
      simpa [sub_eq_add_neg] using
        Filter.tendsto_atTop_add_const_right Filter.atTop (-c.lastAccess)
          Filter.tendsto_id
    have h2 : Filter.Tendsto
        (fun now : ℝ => -(Real.log 2 / cfg.halfLife) * (now - c.lastAccess))
        Filter.atTop Filter.atBot :=
      (Filter.tendsto_const_mul_atBot_of_neg (by linarith)).mpr h1
    have h3 : Filter.Tendsto
        (fun now : ℝ =>
          Real.exp (-(Real.log 2 / cfg.halfLife) * (now - c.lastAccess)))
        Filter.atTop (nhds 0) := Real.tendsto_exp_atBot.comp h2
    have h4 := Filter.Tendsto.max
      (tendsto_const_nhds (x := cfg.minMomentum) (f := Filter.atTop)) h3
    rw [max_eq_left hm0] at h4
    simpa only [calculateTemporalMomentum] using h4

/-- Witness: with the default configuration (half-life 30000) and a
context last accessed at time 100, the temporal factor at time 30100 is
exactly one half. -/
theorem c2_witness :
    calculateTemporalMomentum ⟨30000, 0.1, ⟨0.25, 0.30, 0.20, 0.15, 0.10⟩⟩
      (100 + 30000) ⟨"c", 100, 0, none, none⟩ = 1 / 2 := by
  have h := c2_temporal_decay ⟨30000, 0.1, ⟨0.25, 0.30, 0.20, 0.15, 0.10⟩⟩
    (by norm_num) (by norm_num) (by norm_num)
  exact h.2.1 ⟨"c", 100, 0, none, none⟩

/-! ## Claim C8 -/

/-- The leftmost maximal-score element of a scored candidate list, by
the same comparison the stable sort uses. -/
def bestScored : List (String × AnswerScore) → Option (String × AnswerScore)
  | [] => none
  | x :: l =>
    match bestScored l with
    | none => some x
    | some b =>
      some (if b.2.overall < x.2.overall ∨ b.2.overall = x.2.overall then x else b)

theorem head?_insertScoredDesc (x : String × AnswerScore)
    (l : List (String × AnswerScore)) :
    (insertScoredDesc x l).head? = some
      (match l.head? with
       | none => x
       | some y =>
         if y.2.overall < x.2.overall ∨ y.2.overall = x.2.overall then x else y) := by
  cases l with
  | nil => rfl
  | cons y ys =>
    by_cases hc : y.2.overall < x.2.overall ∨ y.2.overall = x.2.overall <;>
      simp [insertScoredDesc, hc]

theorem head?_sortScoredDesc (l : List (String × AnswerScore)) :
    (sortScoredDesc l).head? = bestScored l := by
  induction l with
  | nil => rfl
  | cons x l ih =>
    show (insertScoredDesc x (sortScoredDesc l)).head? = _
    rw [head?_insertScoredDesc, ih]
    simp only [bestScored]
    cases bestScored l <;> rfl

theorem bestScored_spec : ∀ l : List (String × AnswerScore), l ≠ [] →
    ∃ (i : Nat) (hi : i < l.length),
      bestScored l = some l[i] ∧
      (∀ (j : Nat) (hj : j < l.length), l[j].2.overall ≤ l[i].2.overall) ∧
      (∀ (j : Nat) (hj : j < l.length), j < i → l[j].2.overall < l[i].2.overall)
  | [], h => absurd rfl h
  | x :: l, _ => by
    rcases eq_or_ne l [] with hl | hl
    · subst hl
      refine ⟨0, by simp, by simp [bestScored], ?_, ?_⟩
      · intro j hj
        have hj0 : j = 0 := by
          simp at hj
          exact hj
        subst hj0
        exact le_rfl
      · intro j hj hji
        omega
    · obtain ⟨i, hi, hb, hmax, hstrict⟩ := bestScored_spec l hl
      have hunfold : bestScored (x :: l) =
          match bestScored l with
          | none => some x
          | some b =>
            some (if b.2.overall < x.2.overall ∨ b.2.overall = x.2.overall
              then x else b) := rfl
      by_cases hcond : l[i].2.overall < x.2.overall ∨ l[i].2.overall = x.2.overall
      · refine ⟨0, by simp, ?_, ?_, ?_⟩
        · rw [hunfold, hb]
          simp [hcond]
        · intro j hj
          cases j with
          | zero => exact le_rfl
          | succ j' =>
            have hj' : j' < l.length := by
              simp at hj
              omega
            have h2 : l[i].2.overall ≤ x.2.overall := by
              rcases hcond with h | h
              exacts [le_of_lt h, le_of_eq h]
            have h1 := hmax j' hj'
            simpa using le_trans h1 h2
        · intro j hj hji
          omega
      · push_neg at hcond
        have hxb : x.2.overall < l[i].2.overall :=
          lt_of_le_of_ne hcond.1 (fun h => hcond.2 h.symm)
        have hi1 : i + 1 < (x :: l).length := by
          simp
          omega
        refine ⟨i + 1, hi1, ?_, ?_, ?_⟩
        · rw [hunfold, hb]
          have hnc : ¬ (l[i].2.overall < x.2.overall ∨
              l[i].2.overall = x.2.overall) := by
            push_neg
            exact hcond
          simp [hnc]
        · intro j hj
          cases j with
          | zero => simpa using le_of_lt hxb
          | succ j' =>
            have hj' : j' < l.length := by
              simp at hj
              omega
            simpa using hmax j' hj'
        · intro j hj hji
          cases j with
          | zero => simpa using hxb
          | succ j' =>
            have hj' : j' < l.length := by
              simp at hj
              omega
            simpa using hstrict j' hj' (by omega)

/-- C8: on a non-empty candidate list, filterAnswers succeeds and
returns the candidate whose 8-factor weighted overall score is maximal,
resolving ties to the earliest candidate in input order, together with
that candidate's score breakdown and a confidence equal to the overall;
on the empty list it raises the validation error.  Determinism holds by
construction: the embedding is a pure function of (candidates,
question). -/
theorem c8_filterAnswers_argmax (candidates : List String) (question : String)
    (h : candidates ≠ []) :
    (∃ r : FilterResult, filterAnswers candidates question = Except.ok r ∧
      ∃ (i : Nat) (hi : i < candidates.length),
        r.answer = candidates[i] ∧
        r.score = scoreAnswer candidates[i] question ∧
        r.confidence = (scoreAnswer candidates[i] question).overall ∧
        (∀ (j : Nat) (hj : j < candidates.length),
          (scoreAnswer candidates[j] question).overall ≤
            (scoreAnswer candidates[i] question).overall) ∧
        (∀ (j : Nat) (hj : j < candidates.length), j < i →
          (scoreAnswer candidates[j] question).overall <
            (scoreAnswer candidates[i] question).overall))
    ∧ filterAnswers [] question =
        Except.error "Candidates must be a non-empty array" := by
  refine ⟨?_, rfl⟩
  have hne : candidates.isEmpty = false := by
    cases candidates with
    | nil => exact absurd rfl h
    | cons a l => rfl
  set scored := candidates.map (fun answer => (answer, scoreAnswer answer question))
    with hscored
  have hsne : scored ≠ [] := by
    rw [hscored]
    simpa using h
  obtain ⟨i, hi, hb, hmax, hstrict⟩ := bestScored_spec scored hsne
  have hhead : (sortScoredDesc scored).head? = some scored[i] := by
    rw [head?_sortScoredDesc]
    exact hb
  have hil : i < candidates.length := by
    have := hi
    simpa [hscored] using this
  have hgi : scored[i] = (candidates[i], scoreAnswer candidates[i] question) := by
    simp [hscored]
  cases hsort : sortScoredDesc scored with
  | nil =>
    rw [hsort] at hhead
    simp at hhead
  | cons best rest =>
    rw [hsort] at hhead
    simp only [List.head?_cons, Option.some.injEq] at hhead
    have heval : filterAnswers candidates question =
        Except.ok ⟨best.1, best.2, best.2.overall⟩ := by
      unfold filterAnswers
      rw [hne]
      simp only [Bool.false_eq_true, if_false, ← hscored]
      rw [hsort]
    refine ⟨⟨best.1, best.2, best.2.overall⟩, heval, i, hil, ?_, ?_, ?_, ?_, ?_⟩
    · rw [hhead, hgi]
    · rw [hhead, hgi]
    · rw [hhead, hgi]
    · intro j hj
      have hjs : j < scored.length := by simpa [hscored] using hj
      have := hmax j hjs
      simpa [hscored] using this
    · intro j hj hji
      have hjs : j < scored.length := by simpa [hscored] using hj
      have := hstrict j hjs hji
      simpa [hscored] using this

/-- Witness: on the concrete candidates ["first answer", "second"] and
question "What is X?", filterAnswers succeeds, and on the empty list it
raises the validation error. -/
theorem c8_witness :
    (∃ r : FilterResult,
      filterAnswers ["first answer", "second"] "What is X?" = Except.ok r)
    ∧ filterAnswers [] "What is X?" =
        Except.error "Candidates must be a non-empty array" := by
  have h := c8_filterAnswers_argmax ["first answer", "second"] "What is X?"
    (by simp)
  obtain ⟨⟨r, hr, _⟩, herr⟩ := h
  exact ⟨⟨r, hr⟩, herr⟩

/-! ## Claim C5 -/

theorem mapSet_fresh {α : Type} :
    ∀ (m : List (String × α)) (k : String) (v : α),
      k ∉ m.map Prod.fst → mapSet m k v = m ++ [(k, v)]
  | [], _, _, _ => rfl
  | (k', v') :: m, k, v, h => by
    have hk : k' ≠ k := by
      intro he
      exact h (by simp [he])
    simp only [mapSet, if_neg hk, List.cons_append, List.cons.injEq, true_and]
    exact mapSet_fresh m k v (fun hm => h (by simp [hm]))

theorem mapGet_append_last {α : Type} :
    ∀ (m : List (String × α)) (k : String) (v : α),
      k ∉ m.map Prod.fst → mapGet (m ++ [(k, v)]) k = some v
  | [], k, v, _ => by simp [mapGet]
  | (k', v') :: m, k, v, h => by
    have hk : k' ≠ k := by
      intro he
      exact h (by simp [he])
    simp only [List.cons_append, mapGet, if_neg hk]
    exact mapGet_append_last m k v (fun hm => h (by simp [hm]))

theorem insertName_lt (x : String) :
    ∀ l : List String, (∀ y ∈ l, x < y) → StateVault.insertName x l = x :: l
  | [], _ => rfl
  | y :: ys, h => by
    have : ¬ y < x := not_lt_of_gt (h y (by simp))
    simp [StateVault.insertName, this]

theorem sortNames_sorted_id :
    ∀ l : List String, l.Pairwise (· < ·) → StateVault.sortNames l = l
  | [], _ => rfl
  | a :: l, h => by
    show StateVault.insertName a (StateVault.sortNames l) = a :: l
    rw [sortNames_sorted_id l (List.Pairwise.of_cons h)]
    exact insertName_lt a l (fun y hy => List.rel_of_pairwise_cons h hy)

theorem filter_keys_take_drop {α : Type} :
    ∀ (bs : List (String × α)) (k : Nat), (bs.map Prod.fst).Nodup →
      bs.filter (fun e => decide (e.1 ∉ (bs.map Prod.fst).take k)) = bs.drop k
  | [], k, _ => by simp
  | (n, v) :: rest, 0, _ => by
    rw [List.drop_zero, List.filter_eq_self.mpr]
    intro e _
    simp
  | (n, v) :: rest, k + 1, hnd => by
    have hnmem : n ∉ rest.map Prod.fst := (List.nodup_cons.mp (by simpa using hnd)).1
    have hrest : (rest.map Prod.fst).Nodup := (List.nodup_cons.mp (by simpa using hnd)).2
    simp only [List.map_cons, List.take_succ_cons, List.drop_succ_cons]
    rw [List.filter_cons_of_neg (by simp)]
    rw [List.filter_congr (q := fun e => decide (e.1 ∉ (rest.map Prod.fst).take k)) ?_]
    · exact filter_keys_take_drop rest k hrest
    · intro e he
      have hne : e.1 ≠ n := by
        intro hcontra
        exact hnmem (hcontra ▸ List.mem_map_of_mem Prod.fst he)
      simp [hne]

theorem cleanOldBackups_sorted (cfg : VaultConfig) (bs : List (String × JVal))
    (hs : (bs.map Prod.fst).Pairwise (· < ·)) :
    StateVault.cleanOldBackups cfg bs = bs.drop (bs.length - cfg.maxBackups) := by
  have hnd : (bs.map Prod.fst).Nodup := hs.imp ne_of_lt
  show (let names := StateVault.sortNames (bs.map Prod.fst);
    let doomed := names.take (names.length - cfg.maxBackups);
    bs.filter (fun e => decide (e.1 ∉ doomed))) = _
  simp only [sortNames_sorted_id _ hs, List.length_map]
  exact filter_keys_take_drop bs (bs.length - cfg.maxBackups) hnd

/-- The snapshot document `backup()` writes: the stringified
`{timestamp, contexts}` payload, encrypted when encryption is on. -/
def backupDoc (cfg : VaultConfig) (ts iv : Nat) (vs : VaultState) : JVal :=
  if cfg.encryptionEnabled then
    StateVault.encrypt cfg.encryptionKey iv
      (JVal.backupObj ts (vs.contexts.map Prod.snd))
  else JVal.backupObj ts (vs.contexts.map Prod.snd)

theorem backup_result (cfg : VaultConfig) (ts iv : Nat) (vs : VaultState)
    (hmem : vs.memoryOnly = false)
    (hs : ((vs.backups.map Prod.fst) ++ [StateVault.backupName ts]).Pairwise (· < ·)) :
    (StateVault.backup cfg ts iv vs).2.backups =
      (vs.backups ++ [(StateVault.backupName ts, backupDoc cfg ts iv vs)]).drop
        ((vs.backups.length + 1) - cfg.maxBackups)
    ∧ (StateVault.backup cfg ts iv vs).2.contexts = vs.contexts
    ∧ (StateVault.backup cfg ts iv vs).2.files = vs.files
    ∧ (StateVault.backup cfg ts iv vs).2.memoryOnly = false
    ∧ (StateVault.backup cfg ts iv vs).2.backupTimer = vs.backupTimer := by
  have hfresh : StateVault.backupName ts ∉ vs.backups.map Prod.fst := by
    intro hmem'
    have := (List.pairwise_append.mp hs).2.2 _ hmem'
      (StateVault.backupName ts) (List.mem_singleton_self _)
    exact lt_irrefl _ this
  have hset : mapSet vs.backups (StateVault.backupName ts)
      (backupDoc cfg ts iv vs) =
      vs.backups ++ [(StateVault.backupName ts, backupDoc cfg ts iv vs)] :=
    mapSet_fresh _ _ _ hfresh
  have hclean := cleanOldBackups_sorted cfg
    (vs.backups ++ [(StateVault.backupName ts, backupDoc cfg ts iv vs)])
    (by simpa using hs)
  have hdoc : (if cfg.encryptionEnabled = true then
      StateVault.encrypt cfg.encryptionKey iv
        (JVal.backupObj ts (vs.contexts.map Prod.snd))
    else JVal.backupObj ts (vs.contexts.map Prod.snd)) = backupDoc cfg ts iv vs := rfl
  simp only [StateVault.backup, hmem, Bool.false_eq_true, if_false, hdoc]
  rw [hset, hclean]
  refine ⟨?_, trivial, trivial, trivial, trivial⟩
  simp [List.length_append]

/-- A sequence of `backup()` calls at the given `Date.now()` timestamps
(the random ivs do not affect names or counts and are taken as 0). -/
def runBackups (cfg : VaultConfig) (tss : List Nat) (vs : VaultState) : VaultState :=
  tss.foldl (fun s ts => (StateVault.backup cfg ts 0 s).2) vs

theorem runBackups_names (cfg : VaultConfig) :
    ∀ (tss : List Nat) (vs : VaultState),
      vs.memoryOnly = false →
      1 ≤ cfg.maxBackups →
      vs.backups.length ≤ cfg.maxBackups →
      ((vs.backups.map Prod.fst) ++ tss.map StateVault.backupName).Pairwise (· < ·) →
      (runBackups cfg tss vs).backups.map Prod.fst =
        ((vs.backups.map Prod.fst) ++ tss.map StateVault.backupName).drop
          ((vs.backups.length + tss.length) - cfg.maxBackups)
  | [], vs, _, _, hlen, _ => by
    simp [runBackups, Nat.sub_eq_zero_of_le hlen]
  | ts :: rest, vs, hmem, hmax, hlen, hs => by
    have hs1 : ((vs.backups.map Prod.fst) ++ [StateVault.backupName ts]).Pairwise
        (· < ·) := by
      refine List.Pairwise.sublist ?_ (by simpa using hs)
      exact List.Sublist.append_left
        (List.cons_sublist_cons.mpr (List.nil_sublist _)) _
    obtain ⟨hbk, hctx, hfl, hmo, hbt⟩ := backup_result cfg ts 0 vs hmem hs1
    set vs1 := (StateVault.backup cfg ts 0 vs).2 with hvs1
    have hrun : runBackups cfg (ts :: rest) vs = runBackups cfg rest vs1 := rfl
    set k := (vs.backups.length + 1) - cfg.maxBackups with hk
    have hkle : k ≤ vs.backups.length + 1 := by omega
    have hlen1 : vs1.backups.length = (vs.backups.length + 1) - k := by
      rw [hbk]
      simp [List.length_append]
    have hlen1' : vs1.backups.length ≤ cfg.maxBackups := by omega
    have hnames1 : vs1.backups.map Prod.fst =
        ((vs.backups.map Prod.fst) ++ [StateVault.backupName ts]).drop k := by
      rw [hbk, List.map_drop]
      simp
    have hsfull : (((vs.backups.map Prod.fst) ++ [StateVault.backupName ts]) ++
        rest.map StateVault.backupName).Pairwise (· < ·) := by
      rw [List.append_assoc]
      simpa using hs
    have hs2 : (vs1.backups.map Prod.fst ++ rest.map StateVault.backupName).Pairwise
        (· < ·) := by
      rw [hnames1]
      exact hsfull.sublist ((List.drop_sublist _ _).append_right _)
    have ih := runBackups_names cfg rest vs1 (by rw [hmo]) hmax hlen1' hs2
    rw [hrun, ih, hnames1]
    have hsplit : ((vs.backups.map Prod.fst) ++ [StateVault.backupName ts]).drop k ++
        rest.map StateVault.backupName =
        (((vs.backups.map Prod.fst) ++ [StateVault.backupName ts]) ++
          rest.map StateVault.backupName).drop k := by
      refine (List.drop_append_of_le_length ?_).symm
      simp only [List.length_append, List.length_map, List.length_singleton]
      omega
    rw [hsplit, List.drop_drop]
    have harr : ((vs.backups.map Prod.fst) ++ [StateVault.backupName ts]) ++
        rest.map StateVault.backupName =
        (vs.backups.map Prod.fst) ++ (ts :: rest).map StateVault.backupName := by
      simp [List.append_assoc]
    rw [harr]
    congr 1
    simp only [List.length_map, List.length_cons]
    omega

/-- C5: starting from a vault with no snapshots (not in memory-only
mode), after any sequence of at least `maxBackups + 1` successful
`backup()` calls whose timestamps produce strictly increasing snapshot
names (as Date.now's millisecond timestamps do), exactly `maxBackups`
snapshot units remain on storage and they are the newest ones: the
names on disk are exactly the last `maxBackups` of the chronological
name sequence, rotation having deleted the oldest. -/
theorem c5_backup_rotation (cfg : VaultConfig) (vs : VaultState) (tss : List Nat)
    (hmem : vs.memoryOnly = false) (hb0 : vs.backups = [])
    (hmax : 1 ≤ cfg.maxBackups)
    (hsorted : (tss.map StateVault.backupName).Pairwise (· < ·))
    (hcount : cfg.maxBackups + 1 ≤ tss.length) :
    (runBackups cfg tss vs).backups.map Prod.fst =
      (tss.map StateVault.backupName).drop (tss.length - cfg.maxBackups)
    ∧ (runBackups cfg tss vs).backups.length = cfg.maxBackups := by
  have h := runBackups_names cfg tss vs hmem hmax
    (by simp [hb0]) (by simpa [hb0] using hsorted)
  rw [hb0] at h
  simp only [List.map_nil, List.nil_append, List.length_nil, Nat.zero_add] at h
  refine ⟨h, ?_⟩
  have hlen := congrArg List.length h
  simp only [List.length_map, List.length_drop] at hlen
  omega

/-- Witness: with retention 2, after three backups (timestamps 10, 11,
12) exactly two snapshots remain. -/
theorem c5_witness :
    (runBackups ⟨true, 5, 2⟩ [10, 11, 12] ⟨[], [], [], false, false⟩).backups.length = 2 := by
  have h := c5_backup_rotation ⟨true, 5, 2⟩ ⟨[], [], [], false, false⟩ [10, 11, 12]
    rfl rfl (by norm_num) ?_ (by norm_num)
  · exact h.2
  · simp only [StateVault.backupName, List.map_cons, List.map_nil,
      List.pairwise_cons, List.mem_cons]
    norm_num [String.lt_iff_toList_lt]
    decide

/-! ## Claim C6 -/

/-- Whether a memory-map entry is an honest context entry: a context
object stored under its own id (the invariant saveContext maintains). -/
def isCtxEntry : String × JVal → Bool
  | (k, JVal.ctx c) => decide (k = c.id)
  | _ => false

/-- A fresh StateVault instance opened over the same storage directory:
empty in-memory map, the same persisted files and snapshots, file
storage available, auto-backup running. -/
def reopenVault (vs : VaultState) : VaultState :=
  ⟨[], vs.files, vs.backups, false, true⟩

theorem rebuild_aux :
    ∀ (m acc : List (String × JVal)),
      (∀ e ∈ m, isCtxEntry e = true) →
      ((acc ++ m).map Prod.fst).Nodup →
      (m.map Prod.snd).foldl (fun a v => mapSet a (StateVault.jsIdKey v) v) acc =
        acc ++ m
  | [], acc, _, _ => by simp
  | (k, v) :: rest, acc, hctx, hnd => by
    obtain ⟨c, hc, hk⟩ : ∃ c, v = JVal.ctx c ∧ k = c.id := by
      have hh := hctx (k, v) (by simp)
      cases v with
      | ctx c => exact ⟨c, rfl, by simpa [isCtxEntry] using hh⟩
      | backupObj t l => simp [isCtxEntry] at hh
      | envObj e i tg => simp [isCtxEntry] at hh
      | junk n => simp [isCtxEntry] at hh
    have hkfresh : k ∉ acc.map Prod.fst := by
      rw [List.map_append] at hnd
      have hdisj := (List.nodup_append.mp hnd).2.2
      intro hmemk
      exact hdisj hmemk (by simp)
    have hset : mapSet acc (StateVault.jsIdKey v) v = acc ++ [(k, v)] := by
      have hkey : StateVault.jsIdKey v = k := by
        rw [hc, hk]
        rfl
      rw [hkey]
      exact mapSet_fresh acc k v hkfresh
    simp only [List.map_cons, List.foldl_cons]
    rw [hset]
    rw [rebuild_aux rest (acc ++ [(k, v)])
      (fun e he => hctx e (by simp [he]))
      (by simpa [List.append_assoc] using hnd)]
    simp [List.append_assoc]

/-- C6: shutting down cancels the auto-backup timer and writes one final
snapshot, and a fresh Vault over the same storage with the same key
restores, via `restore(null)`, exactly the pre-shutdown context map.
Hypotheses: storage is available, at least one snapshot is retained,
the final snapshot's name is lexicographically past the existing ones
(true of millisecond timestamps), and the in-memory map holds context
objects under their (distinct) ids, the invariant saveContext maintains. -/
theorem c6_shutdown_final_backup_restore (cfg : VaultConfig) (vs : VaultState)
    (ts iv : Nat)
    (hmem : vs.memoryOnly = false)
    (hmax : 1 ≤ cfg.maxBackups)
    (hs : ((vs.backups.map Prod.fst) ++ [StateVault.backupName ts]).Pairwise (· < ·))
    (hctx : ∀ e ∈ vs.contexts, isCtxEntry e = true)
    (hnodup : (vs.contexts.map Prod.fst).Nodup) :
    (StateVault.shutdown cfg ts iv vs).backupTimer = false
    ∧ (StateVault.restore cfg none
        (reopenVault (StateVault.shutdown cfg ts iv vs))).1 = true
    ∧ (StateVault.restore cfg none
        (reopenVault (StateVault.shutdown cfg ts iv vs))).2.contexts =
      vs.contexts := by
  have hfresh : StateVault.backupName ts ∉ vs.backups.map Prod.fst := by
    intro hmem'
    have := (List.pairwise_append.mp hs).2.2 _ hmem'
      (StateVault.backupName ts) (List.mem_singleton_self _)
    exact lt_irrefl _ this
  set vs0 := StateVault.stopAutoBackup vs with hvs0
  have hmem0 : vs0.memoryOnly = false := hmem
  have hs0 : ((vs0.backups.map Prod.fst) ++ [StateVault.backupName ts]).Pairwise
      (· < ·) := hs
  obtain ⟨hbk, hctx0, hfl0, hmo0, hbt0⟩ := backup_result cfg ts iv vs0 hmem0 hs0
  have hshut : StateVault.shutdown cfg ts iv vs = (StateVault.backup cfg ts iv vs0).2 :=
    rfl
  set k := (vs.backups.length + 1) - cfg.maxBackups with hkdef
  have hkle : k ≤ vs.backups.length := by omega
  set doc0 := backupDoc cfg ts iv vs0 with hdoc0
  have hshutbk : (StateVault.shutdown cfg ts iv vs).backups =
      vs.backups.drop k ++ [(StateVault.backupName ts, doc0)] := by
    rw [hshut, hbk]
    exact List.drop_append_of_le_length hkle
  have htimer : (StateVault.shutdown cfg ts iv vs).backupTimer = false := by
    rw [hshut, hbt0]
    rfl
  refine ⟨htimer, ?_⟩
  have hfreshD : StateVault.backupName ts ∉ (vs.backups.drop k).map Prod.fst := by
    rw [List.map_drop]
    intro hm
    exact hfresh ((List.drop_sublist _ _).subset hm)
  have hget : mapGet ((StateVault.shutdown cfg ts iv vs).backups)
      (StateVault.backupName ts) = some doc0 := by
    rw [hshutbk]
    exact mapGet_append_last _ _ _ hfreshD
  have hlast : (((StateVault.shutdown cfg ts iv vs).backups.map Prod.fst).getLast?).getD ""
      = StateVault.backupName ts := by
    rw [hshutbk, List.map_append]
    rw [List.getLast?_append_of_ne_nil _ (by simp)]
    rfl
  have hne : ((StateVault.shutdown cfg ts iv vs).backups.map Prod.fst).isEmpty = false := by
    rw [hshutbk]
    simp
  have hpayload : (if cfg.encryptionEnabled = true then
      StateVault.decrypt cfg.encryptionKey doc0 else doc0) =
      JVal.backupObj ts (vs.contexts.map Prod.snd) := by
    rw [hdoc0]
    have hc0 : vs0.contexts = vs.contexts := rfl
    cases henc : cfg.encryptionEnabled with
    | true =>
      simp only [if_true, backupDoc, henc, StateVault.decrypt_encrypt, hc0]
    | false =>
      simp only [Bool.false_eq_true, if_false, backupDoc, henc, hc0]
  have hrebuild : ((vs.contexts.map Prod.snd).foldl
      (fun a v => mapSet a (StateVault.jsIdKey v) v) []) = vs.contexts := by
    have := rebuild_aux vs.contexts [] hctx (by simpa using hnodup)
    simpa using this
  show (StateVault.restore cfg none (reopenVault (StateVault.shutdown cfg ts iv vs))).1 = true
    ∧ (StateVault.restore cfg none (reopenVault (StateVault.shutdown cfg ts iv vs))).2.contexts = vs.contexts
  have hropen : reopenVault (StateVault.shutdown cfg ts iv vs) =
      ⟨[], (StateVault.shutdown cfg ts iv vs).files,
        (StateVault.shutdown cfg ts iv vs).backups, false, true⟩ := rfl
  rw [hropen]
  simp only [StateVault.restore, hne, Bool.false_eq_true, if_false, hlast, hget,
    hpayload, hrebuild]
  exact ⟨trivial, trivial⟩

/-- Witness: a vault holding one context "a" and no prior snapshots is
shut down; a fresh vault over the same storage restores exactly that
context map, and the timer is cancelled. -/
theorem c6_witness :
    (StateVault.shutdown ⟨true, 5, 3⟩ 7 9
      ⟨[("a", JVal.ctx ⟨"a", 1⟩)], [], [], false, true⟩).backupTimer = false
    ∧ (StateVault.restore ⟨true, 5, 3⟩ none
        (reopenVault (StateVault.shutdown ⟨true, 5, 3⟩ 7 9
          ⟨[("a", JVal.ctx ⟨"a", 1⟩)], [], [], false, true⟩))).2.contexts =
      [("a", JVal.ctx ⟨"a", 1⟩)] := by
  have h := c6_shutdown_final_backup_restore ⟨true, 5, 3⟩
    ⟨[("a", JVal.ctx ⟨"a", 1⟩)], [], [], false, true⟩ 7 9 rfl (by norm_num)
    (by simp) (by decide) (by decide)
  exact ⟨h.1, h.2.2⟩
